import Mathlib

/-!
A shallow embedding of the `BrokerClient` class from `BrokerClient.hpp` /
`BrokerClient.cpp`: a single brokerage account that accepts buy/sell orders
for named securities, keeps a cash balance, a portfolio keyed by security
name, a FIFO queue of outstanding buy lots per security, and an append-only
transaction log.

Modelling conventions:
* C++ `double` is modelled as `ℚ` (exact arithmetic).
* C++ `uint32_t` quantities are modelled as `ℕ` (no claim exercises
  wraparound).
* `std::map<std::string, T>` is modelled as an association list
  `List (String × T)` kept sorted by key in strictly increasing `String`
  order (the `std::map` iteration order); `std::queue<Order>` as
  `List Order` with push at the back and pop at the front.
-/

namespace Broker

/-- `SecurityPosition` struct from `BrokerClient.hpp`: ticker name,
share quantity, and price. -/
structure SecurityPosition where
  name : String
  quantity : Nat
  price : ℚ
  deriving DecidableEq, Repr

/-- `OrderKind` enum from `BrokerClient.hpp`. -/
inductive OrderKind where
  | Buy
  | Sell
  deriving DecidableEq, Repr

/-- `Order` struct from `BrokerClient.hpp`: a kind together with the
security position to buy or sell. -/
structure Order where
  kind : OrderKind
  position : SecurityPosition
  deriving DecidableEq, Repr

/-- Lookup in the association-list model of `std::map` (`find` /
`operator[]` read). -/
def mapFind {α : Type} : List (String × α) → String → Option α
  | [], _ => none
  | (k, v) :: rest, key => if key = k then some v else mapFind rest key

/-- Insert-or-update in the association-list model of `std::map`
(`insert` of an absent key / assignment through `operator[]`), keeping
the list sorted by key. -/
def mapSet {α : Type} : List (String × α) → String → α → List (String × α)
  | [], key, v => [(key, v)]
  | (k, w) :: rest, key, v =>
    if key = k then (key, v) :: rest
    else if key < k then (key, v) :: (k, w) :: rest
    else (k, w) :: mapSet rest key v

/-- Erase of a present key in the association-list model of `std::map`
(`portfolio_.erase(it)`). -/
def mapErase {α : Type} : List (String × α) → String → List (String × α)
  | [], _ => []
  | (k, v) :: rest, key => if key = k then rest else (k, v) :: mapErase rest key

/-- The ledger state of `class BrokerClient`: cash balance, portfolio map,
transaction log, and the per-security FIFO queues of outstanding buy lots. -/
structure BrokerClient where
  cashBalance_ : ℚ
  portfolio_ : List (String × SecurityPosition)
  transactions_ : List Order
  outstandingBuyOrderMap_ : List (String × List Order)
  deriving DecidableEq, Repr

namespace BrokerClient

/-- The `BrokerClient(double cashBalance)` constructor: empty portfolio,
empty transaction log, empty buy-lot map. -/
def init (cashBalance : ℚ) : BrokerClient :=
  { cashBalance_ := cashBalance
    portfolio_ := []
    transactions_ := []
    outstandingBuyOrderMap_ := [] }

/-- The quantity transacted on the buy path of `SubmitOrder`
(`BrokerClient.cpp` lines 22-23):
`(uint32_t)std::min((double)quantity, cashBalance / price)`.
For `price > 0` and `cashBalance ≥ 0` the truncating `double → uint32_t`
conversion yields `min quantity ⌊cashBalance / price⌋`.  For `price = 0`
and `cashBalance ≥ 0` the IEEE-754 quotient is `+∞` (or NaN at cash `0`,
which `std::min` passes over), so the whole requested quantity results. -/
def affordableQty (cash : ℚ) (price : ℚ) (quantity : Nat) : Nat :=
  if price = 0 then quantity else min quantity (Int.toNat ⌊cash / price⌋)

/-- The divisor of the average-cost recomputation on the sell path
(`BrokerClient.cpp` line 143): `position.quantity - order.position.quantity`,
evaluated before the zero-quantity check that erases the entry. -/
def sellDivisor (position : SecurityPosition) (order : Order) : ℚ :=
  (position.quantity : ℚ) - (order.position.quantity : ℚ)

/-- The FIFO drain loop of `HandleSell` (`BrokerClient.cpp` lines 112-132):
consume `q` shares worth of buy lots from the front of the queue, fully
popping lots or partially reducing the front lot, and accumulate
`buyValueRemoved` (the consumed quantity times each lot's price).  Returns
the remaining queue and the accumulated value.  The C++ loop dereferences
`front()` of an empty queue if `q` exceeds the queue's total quantity;
that is unreachable from `SubmitOrder` and modelled by stopping. -/
def drainLots : List Order → Nat → List Order × ℚ
  | lots, 0 => (lots, 0)
  | [], _ + 1 => ([], 0)
  | lot :: rest, q + 1 =>
    if lot.position.quantity ≤ q + 1 then
      let r := drainLots rest (q + 1 - lot.position.quantity)
      (r.1, (lot.position.quantity : ℚ) * lot.position.price + r.2)
    else
      ({ lot with position :=
          { lot.position with quantity := lot.position.quantity - (q + 1) } } :: rest,
       ((q + 1 : Nat) : ℚ) * lot.position.price)

/-- `BrokerClient::HandleBuy`: update the portfolio entry (weighted-average
price across buy orders, on a per-share basis), push the buy lot onto the
security's FIFO queue, decrease cash by `price * quantity`, and append the
order to the transaction log. -/
def HandleBuy (s : BrokerClient) (order : Order) : BrokerClient :=
  let name := order.position.name
  let portfolio' :=
    match mapFind s.portfolio_ name with
    | some position =>
      let weightedPrice :=
        ((order.position.quantity : ℚ) * order.position.price +
          (position.quantity : ℚ) * position.price) /
          ((order.position.quantity : ℚ) + (position.quantity : ℚ))
      mapSet s.portfolio_ name
        { position with quantity := position.quantity + order.position.quantity
                        price := weightedPrice }
    | none => mapSet s.portfolio_ name order.position
  let queue := (mapFind s.outstandingBuyOrderMap_ name).getD []
  { cashBalance_ := s.cashBalance_ - order.position.price * (order.position.quantity : ℚ)
    portfolio_ := portfolio'
    transactions_ := s.transactions_ ++ [order]
    outstandingBuyOrderMap_ := mapSet s.outstandingBuyOrderMap_ name (queue ++ [order]) }

/-- `BrokerClient::HandleSell`: drain the FIFO buy-lot queue by the sold
quantity, recompute the portfolio entry's price as
`(price * quantity - buyValueRemoved) / (quantity - soldQuantity)` (the
division is written exactly as at `BrokerClient.cpp` lines 141-143, with
`sellDivisor` naming its divisor), decrement its quantity, erase the entry
if the quantity reached zero, increase cash by `price * quantity` of the
sell order, and append the order to the transaction log.  The C++ function
reads the portfolio through `operator[]`; the absent-key branch is
unreachable from `SubmitOrder`, which only calls `HandleSell` for a present
key, and is modelled as leaving the portfolio unchanged. -/
def HandleSell (s : BrokerClient) (order : Order) : BrokerClient :=
  let name := order.position.name
  let queue := (mapFind s.outstandingBuyOrderMap_ name).getD []
  let d := drainLots queue order.position.quantity
  let portfolio' :=
    match mapFind s.portfolio_ name with
    | some position =>
      let newPrice :=
        (position.price * (position.quantity : ℚ) - d.2) / sellDivisor position order
      let newQuantity := position.quantity - order.position.quantity
      if newQuantity = 0 then mapErase s.portfolio_ name
      else mapSet s.portfolio_ name
        { position with quantity := newQuantity, price := newPrice }
    | none => s.portfolio_
  { cashBalance_ := s.cashBalance_ + order.position.price * (order.position.quantity : ℚ)
    portfolio_ := portfolio'
    transactions_ := s.transactions_ ++ [order]
    outstandingBuyOrderMap_ := mapSet s.outstandingBuyOrderMap_ name d.1 }

/-- `BrokerClient::SubmitOrder`: compute the transacted quantity for the
order, dispatch to `HandleBuy` / `HandleSell` with the completed order, and
return the transacted quantity together with the updated ledger.  The buy
path breaks before `HandleBuy` when the transacted quantity is `0`; the
sell path breaks only when the security is absent from the portfolio. -/
def SubmitOrder (s : BrokerClient) (order : Order) : Nat × BrokerClient :=
  match order.kind with
  | OrderKind.Buy =>
    let quantityTransacted :=
      affordableQty s.cashBalance_ order.position.price order.position.quantity
    if quantityTransacted = 0 then (0, s)
    else
      let completedOrder : Order :=
        { kind := OrderKind.Buy
          position := { name := order.position.name
                        quantity := quantityTransacted
                        price := order.position.price } }
      (quantityTransacted, HandleBuy s completedOrder)
  | OrderKind.Sell =>
    match mapFind s.portfolio_ order.position.name with
    | none => (0, s)
    | some position =>
      let quantityTransacted := min order.position.quantity position.quantity
      let completedOrder : Order :=
        { kind := OrderKind.Sell
          position := { name := order.position.name
                        quantity := quantityTransacted
                        price := order.position.price } }
      (quantityTransacted, HandleSell s completedOrder)

/-- `BrokerClient::GetPositions`: the portfolio's values in `std::map`
iteration order (ascending key order). -/
def GetPositions (s : BrokerClient) : List SecurityPosition :=
  s.portfolio_.map Prod.snd

/-- `BrokerClient::GetTransactions`. -/
def GetTransactions (s : BrokerClient) : List Order :=
  s.transactions_

/-- `BrokerClient::GetCashBalance`. -/
def GetCashBalance (s : BrokerClient) : ℚ :=
  s.cashBalance_

/-- Fold a list of orders through `SubmitOrder` (a sequence of calls on one
client instance), keeping the final state. -/
def applyOrders (s : BrokerClient) (orders : List Order) : BrokerClient :=
  orders.foldl (fun t o => (SubmitOrder t o).2) s

/-- Convenience constructor for a buy order request. -/
def buyOrder (name : String) (quantity : Nat) (price : ℚ) : Order :=
  { kind := OrderKind.Buy, position := { name := name, quantity := quantity, price := price } }

/-- Convenience constructor for a sell order request. -/
def sellOrder (name : String) (quantity : Nat) (price : ℚ) : Order :=
  { kind := OrderKind.Sell, position := { name := name, quantity := quantity, price := price } }

/-- Portfolio quantity held for a security (`0` when the security is absent
from the portfolio map). -/
def portfolioQty (s : BrokerClient) (name : String) : Nat :=
  match mapFind s.portfolio_ name with
  | some position => position.quantity
  | none => 0

/-- Total quantity across a list of buy lots. -/
def lotQty (lots : List Order) : Nat :=
  (lots.map (fun o => o.position.quantity)).sum

/-- Total quantity across a security's FIFO buy-lot queue (`0` when the
security has no queue or an empty one). -/
def lotSum (s : BrokerClient) (name : String) : Nat :=
  lotQty ((mapFind s.outstandingBuyOrderMap_ name).getD [])

end BrokerClient

/-! ### Lemmas about the association-list model of `std::map` -/

theorem mapFind_mapSet_self {α : Type} (m : List (String × α)) (k : String) (v : α) :
    mapFind (mapSet m k v) k = some v := by
  induction m with
  | nil => simp [mapSet, mapFind]
  | cons head rest ih =>
    obtain ⟨k', w⟩ := head
    by_cases h : k = k'
    · simp [mapSet, h, mapFind]
    · by_cases h2 : k < k'
      · simp [mapSet, h, h2, mapFind]
      · simp [mapSet, h, h2, mapFind, ih]

theorem mapFind_mapSet_ne {α : Type} (m : List (String × α)) {key k : String} (v : α)
    (h : key ≠ k) : mapFind (mapSet m k v) key = mapFind m key := by
  induction m with
  | nil => simp [mapSet, mapFind, h]
  | cons head rest ih =>
    obtain ⟨k', w⟩ := head
    by_cases h1 : k = k'
    · subst h1
      simp [mapSet, mapFind, h]
    · by_cases h2 : k < k'
      · simp [mapSet, h1, h2, mapFind, h]
      · simp [mapSet, h1, h2, mapFind, ih]

theorem mapErase_sublist {α : Type} (m : List (String × α)) (k : String) :
    (mapErase m k).Sublist m := by
  induction m with
  | nil => simp [mapErase]
  | cons head rest ih =>
    obtain ⟨k', w⟩ := head
    by_cases h : k = k'
    · simp only [mapErase, if_pos h]
      exact List.sublist_cons_self (k', w) rest
    · simp only [mapErase, if_neg h]
      exact ih.cons₂ (k', w)

theorem mapFind_mapErase_ne {α : Type} (m : List (String × α)) {key k : String}
    (h : key ≠ k) : mapFind (mapErase m k) key = mapFind m key := by
  induction m with
  | nil => simp [mapErase]
  | cons head rest ih =>
    obtain ⟨k', w⟩ := head
    by_cases h1 : k = k'
    · subst h1
      simp [mapErase, mapFind, h]
    · simp [mapErase, h1, mapFind, ih]

theorem mapFind_eq_none_iff {α : Type} (m : List (String × α)) (k : String) :
    mapFind m k = none ↔ k ∉ m.map Prod.fst := by
  induction m with
  | nil => simp [mapFind]
  | cons head rest ih =>
    obtain ⟨k', w⟩ := head
    by_cases h : k = k'
    · simp [mapFind, h]
    · simp [mapFind, h, ih]

theorem mapFind_isSome_iff_mem {α : Type} (m : List (String × α)) (k : String) :
    (mapFind m k).isSome ↔ k ∈ m.map Prod.fst := by
  rcases hf : mapFind m k with _ | v
  · simpa using (mapFind_eq_none_iff m k).mp hf
  · simp only [Option.isSome_some, true_iff]
    by_contra hmem
    rw [(mapFind_eq_none_iff m k).mpr hmem] at hf
    exact Option.noConfusion hf

theorem mapFind_mapErase_self {α : Type} (m : List (String × α)) (k : String)
    (hnd : (m.map Prod.fst).Nodup) : mapFind (mapErase m k) k = none := by
  induction m with
  | nil => simp [mapErase, mapFind]
  | cons head rest ih =>
    obtain ⟨k', w⟩ := head
    simp only [List.map_cons, List.nodup_cons] at hnd
    by_cases h : k = k'
    · subst h
      simp only [mapErase, if_pos rfl]
      exact (mapFind_eq_none_iff rest k).mpr hnd.1
    · simp [mapErase, h, mapFind, ih hnd.2]

theorem mapErase_mapSet {α : Type} (m : List (String × α)) (k : String) (v : α)
    (h : mapFind m k = none) : mapErase (mapSet m k v) k = m := by
  induction m with
  | nil => simp [mapSet, mapErase]
  | cons head rest ih =>
    obtain ⟨k', w⟩ := head
    have hne : k ≠ k' := by
      intro he
      simp [mapFind, he] at h
    by_cases h2 : k < k'
    · simp [mapSet, hne, h2, mapErase]
    · have hrest : mapFind rest k = none := by
        simpa [mapFind, hne] using h
      simp [mapSet, hne, h2, mapErase, ih hrest]

theorem mapSet_cons {α : Type} (k' : String) (w : α) (rest : List (String × α))
    (k : String) (v : α) :
    mapSet ((k', w) :: rest) k v =
      if k = k' then (k, v) :: rest
      else if k < k' then (k, v) :: (k', w) :: rest
      else (k', w) :: mapSet rest k v := rfl

theorem mapSet_keys_mem {α : Type} (m : List (String × α)) (k : String) (v : α) :
    ∀ b ∈ (mapSet m k v).map Prod.fst, b = k ∨ b ∈ m.map Prod.fst := by
  induction m with
  | nil => simp [mapSet]
  | cons head rest ih =>
    obtain ⟨k', w⟩ := head
    by_cases h1 : k = k'
    · subst h1
      rw [mapSet_cons, if_pos rfl]
      simp only [List.map_cons, List.mem_cons]
      intro b hb
      tauto
    · by_cases h2 : k < k'
      · rw [mapSet_cons, if_neg h1, if_pos h2]
        simp only [List.map_cons, List.mem_cons]
        intro b hb
        tauto
      · rw [mapSet_cons, if_neg h1, if_neg h2]
        simp only [List.map_cons, List.mem_cons]
        intro b hb
        rcases hb with hb | hb
        · tauto
        · rcases ih b hb with hb' | hb' <;> tauto

theorem mapSet_keys_sorted {α : Type} (m : List (String × α)) (k : String) (v : α)
    (h : ((m.map Prod.fst)).Sorted (· < ·)) :
    (((mapSet m k v).map Prod.fst)).Sorted (· < ·) := by
  induction m with
  | nil => simp [mapSet]
  | cons head rest ih =>
    obtain ⟨k', w⟩ := head
    simp only [List.map_cons, List.sorted_cons] at h
    obtain ⟨h1, h2⟩ := h
    by_cases e1 : k = k'
    · subst e1
      rw [mapSet_cons, if_pos rfl]
      simp only [List.map_cons, List.sorted_cons]
      exact ⟨h1, h2⟩
    · by_cases e2 : k < k'
      · rw [mapSet_cons, if_neg e1, if_pos e2]
        simp only [List.map_cons, List.sorted_cons]
        refine ⟨?_, h1, h2⟩
        intro b hb
        rcases List.mem_cons.mp hb with hb | hb
        · exact hb ▸ e2
        · exact lt_trans e2 (h1 b hb)
      · have e3 : k' < k := by
          rcases lt_trichotomy k k' with h' | h' | h'
          · exact absurd h' e2
          · exact absurd h' e1
          · exact h'
        rw [mapSet_cons, if_neg e1, if_neg e2]
        simp only [List.map_cons, List.sorted_cons]
        refine ⟨?_, ih h2⟩
        intro b hb
        rcases mapSet_keys_mem rest k v b hb with hb' | hb'
        · exact hb' ▸ e3
        · exact h1 b hb'

theorem mapErase_keys_sorted {α : Type} (m : List (String × α)) (k : String)
    (h : ((m.map Prod.fst)).Sorted (· < ·)) :
    (((mapErase m k).map Prod.fst)).Sorted (· < ·) :=
  List.Pairwise.sublist ((mapErase_sublist m k).map Prod.fst) h

/-! ### Lemmas about buy-lot quantities and the FIFO drain loop -/

namespace BrokerClient

@[simp] theorem lotQty_nil : lotQty [] = 0 := rfl

@[simp] theorem lotQty_cons (o : Order) (l : List Order) :
    lotQty (o :: l) = o.position.quantity + lotQty l := by
  simp [lotQty]

theorem lotQty_append (l1 l2 : List Order) :
    lotQty (l1 ++ l2) = lotQty l1 + lotQty l2 := by
  simp [lotQty]

@[simp] theorem drainLots_zero (lots : List Order) : drainLots lots 0 = (lots, 0) := by
  cases lots <;> rfl

/-- Draining `q` shares from a queue holding at least `q` shares leaves a
queue holding exactly `q` fewer shares. -/
theorem drainLots_lotQty (lots : List Order) (q : Nat) (h : q ≤ lotQty lots) :
    lotQty (drainLots lots q).1 = lotQty lots - q := by
  induction lots generalizing q with
  | nil =>
    have hq : q = 0 := Nat.le_zero.mp (by simpa using h)
    subst hq
    simp
  | cons lot rest ih =>
    cases q with
    | zero => simp
    | succ n =>
      by_cases hc : lot.position.quantity ≤ n + 1
      · have h' : n + 1 - lot.position.quantity ≤ lotQty rest := by
          simp only [lotQty_cons] at h
          omega
        simp only [drainLots, if_pos hc]
        rw [ih _ h']
        simp only [lotQty_cons]
        omega
      · simp only [drainLots, if_neg hc, lotQty_cons]
        omega

/-- The state invariant of the ledger: both `std::map`s have their keys in
strictly increasing order, and every security's portfolio quantity equals
the total quantity across its FIFO buy-lot queue. -/
def Inv (s : BrokerClient) : Prop :=
  (s.portfolio_.map Prod.fst).Sorted (· < ·) ∧
  (s.outstandingBuyOrderMap_.map Prod.fst).Sorted (· < ·) ∧
  ∀ name, portfolioQty s name = lotSum s name

theorem inv_init (c : ℚ) : Inv (init c) := by
  refine ⟨by simp [init], by simp [init], ?_⟩
  intro name
  simp [portfolioQty, lotSum, init, mapFind]

theorem inv_handleBuy (s : BrokerClient) (o : Order) (h : Inv s) :
    Inv (HandleBuy s o) := by
  obtain ⟨hs1, hs2, hq⟩ := h
  refine ⟨?_, ?_, ?_⟩
  · rcases hf : mapFind s.portfolio_ o.position.name with _ | pos <;>
      simp only [HandleBuy, hf] <;> exact mapSet_keys_sorted _ _ _ hs1
  · rcases hf : mapFind s.portfolio_ o.position.name with _ | pos <;>
      simp only [HandleBuy, hf] <;> exact mapSet_keys_sorted _ _ _ hs2
  · intro name
    by_cases hn : name = o.position.name
    · subst hn
      have hqn := hq o.position.name
      rcases hf : mapFind s.portfolio_ o.position.name with _ | pos <;>
        simp only [portfolioQty, lotSum, hf] at hqn <;>
        simp only [HandleBuy, hf, portfolioQty, lotSum, mapFind_mapSet_self,
          Option.getD_some, lotQty_append, lotQty_cons, lotQty_nil] <;>
        omega
    · have hqn := hq name
      simp only [portfolioQty, lotSum] at hqn
      rcases hf : mapFind s.portfolio_ o.position.name with _ | pos <;>
        simp only [HandleBuy, hf, portfolioQty, lotSum, mapFind_mapSet_ne _ _ hn] <;>
        exact hqn

theorem inv_handleSell (s : BrokerClient) (o : Order) (h : Inv s)
    (hle : o.position.quantity ≤ portfolioQty s o.position.name) :
    Inv (HandleSell s o) := by
  obtain ⟨hs1, hs2, hq⟩ := h
  rcases hf : mapFind s.portfolio_ o.position.name with _ | pos
  · have h0 : o.position.quantity = 0 := by
      simpa [portfolioQty, hf] using hle
    refine ⟨?_, ?_, ?_⟩
    · simp only [HandleSell, hf]
      exact hs1
    · simp only [HandleSell, hf]
      exact mapSet_keys_sorted _ _ _ hs2
    · intro name
      by_cases hn : name = o.position.name
      · subst hn
        have hqn := hq o.position.name
        simp only [portfolioQty, lotSum, hf] at hqn
        simp only [HandleSell, hf, h0, drainLots_zero, portfolioQty, lotSum,
          mapFind_mapSet_self, Option.getD_some]
        exact hqn
      · have hqn := hq name
        simp only [portfolioQty, lotSum] at hqn
        simp only [HandleSell, hf, h0, drainLots_zero, portfolioQty, lotSum,
          mapFind_mapSet_ne _ _ hn]
        exact hqn
  · have hineq : o.position.quantity ≤ pos.quantity := by
      simpa [portfolioQty, hf] using hle
    have hlot : lotQty ((mapFind s.outstandingBuyOrderMap_ o.position.name).getD []) =
        pos.quantity := by
      have hqn := hq o.position.name
      simp only [portfolioQty, lotSum, hf] at hqn
      exact hqn.symm
    have hdrain := drainLots_lotQty ((mapFind s.outstandingBuyOrderMap_ o.position.name).getD [])
      o.position.quantity (by rw [hlot]; exact hineq)
    refine ⟨?_, ?_, ?_⟩
    · by_cases hz : pos.quantity - o.position.quantity = 0
      · simp only [HandleSell, hf, hz, if_pos rfl]
        exact mapErase_keys_sorted _ _ hs1
      · simp only [HandleSell, hf, if_neg hz]
        exact mapSet_keys_sorted _ _ _ hs1
    · simp only [HandleSell, hf]
      exact mapSet_keys_sorted _ _ _ hs2
    · intro name
      by_cases hn : name = o.position.name
      · subst hn
        by_cases hz : pos.quantity - o.position.quantity = 0
        · simp only [HandleSell, hf, if_pos hz, portfolioQty, lotSum,
            mapFind_mapErase_self _ _ (List.Sorted.nodup hs1), mapFind_mapSet_self,
            Option.getD_some]
          rw [hdrain, hlot]
          omega
        · simp only [HandleSell, hf, if_neg hz, portfolioQty, lotSum,
            mapFind_mapSet_self, Option.getD_some]
          rw [hdrain, hlot]
      · have hqn := hq name
        simp only [portfolioQty, lotSum] at hqn
        by_cases hz : pos.quantity - o.position.quantity = 0
        · simp only [HandleSell, hf, if_pos hz, portfolioQty, lotSum,
            mapFind_mapSet_ne _ _ hn, mapFind_mapErase_ne _ hn]
          exact hqn
        · simp only [HandleSell, hf, if_neg hz, portfolioQty, lotSum,
            mapFind_mapSet_ne _ _ hn]
          exact hqn

theorem inv_submitOrder (s : BrokerClient) (o : Order) (h : Inv s) :
    Inv (SubmitOrder s o).2 := by
  obtain ⟨kind, position⟩ := o
  cases kind with
  | Buy =>
    by_cases h0 : affordableQty s.cashBalance_ position.price position.quantity = 0
    · simpa [SubmitOrder, h0] using h
    · simpa [SubmitOrder, h0] using inv_handleBuy s _ h
  | Sell =>
    rcases hf : mapFind s.portfolio_ position.name with _ | pos
    · simpa [SubmitOrder, hf] using h
    · have hle : min position.quantity pos.quantity ≤
          portfolioQty s position.name := by
        simp only [portfolioQty, hf]
        exact Nat.min_le_right _ _
      simpa [SubmitOrder, hf] using
        inv_handleSell s
          { kind := OrderKind.Sell
            position := { name := position.name
                          quantity := min position.quantity pos.quantity
                          price := position.price } } h hle

theorem inv_applyOrders (s : BrokerClient) (orders : List Order) (h : Inv s) :
    Inv (applyOrders s orders) := by
  induction orders generalizing s with
  | nil => simpa [applyOrders] using h
  | cons o rest ih =>
    simp only [applyOrders, List.foldl_cons]
    exact ih _ (inv_submitOrder s o h)

/-! ### Cash-balance lemmas -/

/-- Any quantity at most the affordable quantity `⌊cash / p⌋` costs at most
`cash`. -/
theorem affordable_mul_le (cash p : ℚ) (q : Nat) (hc : 0 ≤ cash) (hp : 0 < p)
    (hq : q ≤ Int.toNat ⌊cash / p⌋) : (q : ℚ) * p ≤ cash := by
  have h0 : (0 : ℤ) ≤ ⌊cash / p⌋ := Int.floor_nonneg.mpr (div_nonneg hc hp.le)
  have h1 : (q : ℤ) ≤ ⌊cash / p⌋ := (Int.le_toNat h0).mp hq
  have h2 : (q : ℚ) ≤ cash / p := Int.le_floor.mp h1
  exact (le_div_iff₀ hp).mp h2

theorem cash_submitOrder (s : BrokerClient) (o : Order) (hc : 0 ≤ s.cashBalance_)
    (hp : 0 ≤ o.position.price) : 0 ≤ (SubmitOrder s o).2.cashBalance_ := by
  obtain ⟨kind, position⟩ := o
  cases kind with
  | Buy =>
    by_cases h0 : affordableQty s.cashBalance_ position.price position.quantity = 0
    · simpa [SubmitOrder, h0] using hc
    · simp only [SubmitOrder, if_neg h0, HandleBuy]
      by_cases hz : position.price = 0
      · simpa [hz] using hc
      · have hppos : 0 < position.price := lt_of_le_of_ne hp (Ne.symm hz)
        have hle : (affordableQty s.cashBalance_ position.price position.quantity : ℚ) *
            position.price ≤ s.cashBalance_ := by
          refine affordable_mul_le _ _ _ hc hppos ?_
          simp [affordableQty, hz]
        rw [sub_nonneg, mul_comm]
        exact hle
  | Sell =>
    rcases hf : mapFind s.portfolio_ position.name with _ | pos
    · simpa [SubmitOrder, hf] using hc
    · simp only [SubmitOrder, hf, HandleSell]
      exact add_nonneg hc (mul_nonneg hp (Nat.cast_nonneg _))

theorem cash_applyOrders (s : BrokerClient) (orders : List Order)
    (hc : 0 ≤ s.cashBalance_) (hp : ∀ o ∈ orders, 0 ≤ o.position.price) :
    0 ≤ (applyOrders s orders).cashBalance_ := by
  induction orders generalizing s with
  | nil => simpa [applyOrders] using hc
  | cons o rest ih =>
    simp only [applyOrders, List.foldl_cons]
    exact ih _ (cash_submitOrder s o hc (hp o (by simp)))
      (fun o' ho' => hp o' (by simp [ho']))

/-- A buy for `q > 0` shares at price `p > 0` with `q * p ≤ cash` fills the
whole request and hands the completed order to `HandleBuy`. -/
theorem submitOrder_buy_fills (s : BrokerClient) (n : String) (q : Nat) (p : ℚ)
    (hq : 0 < q) (hp : 0 < p) (h : (q : ℚ) * p ≤ s.cashBalance_) :
    SubmitOrder s (buyOrder n q p) = (q, HandleBuy s (buyOrder n q p)) := by
  have hcash : (0 : ℚ) ≤ s.cashBalance_ := le_trans (by positivity) h
  have hfloor : q ≤ Int.toNat ⌊s.cashBalance_ / p⌋ := by
    rw [Int.le_toNat (Int.floor_nonneg.mpr (div_nonneg hcash hp.le))]
    exact Int.le_floor.mpr ((le_div_iff₀ hp).mpr h)
  have haff : affordableQty s.cashBalance_ p q = q := by
    simp [affordableQty, hp.ne', Nat.min_eq_left hfloor]
  simp [SubmitOrder, buyOrder, haff, Nat.pos_iff_ne_zero.mp hq]

/-! ### Claim theorems -/

/-- Claim C1 (refuted by the code): the claim says a zero-fill order is
never appended to the transaction log, but `SubmitOrder`'s sell path only
breaks when the security is absent from the portfolio, so a sell of a held
security with requested quantity 0 is handed to `HandleSell` and the
zero-quantity order is appended: after buy 1 AAPL @ 1 then sell 0 AAPL @ 5
the transaction log contains the zero-quantity sell. -/
theorem spec_C1_zero_fill_sell_logged :
    GetTransactions (applyOrders (init 10000)
        [buyOrder "AAPL" 1 1, sellOrder "AAPL" 0 5]) =
      [buyOrder "AAPL" 1 1, sellOrder "AAPL" 0 5] ∧
    (sellOrder "AAPL" 0 5).position.quantity = 0 := by
  constructor
  · norm_num [applyOrders, List.foldl, SubmitOrder, affordableQty, HandleBuy, HandleSell,
      drainLots, mapFind, mapSet, mapErase, init, buyOrder, sellOrder, GetTransactions,
      sellDivisor]
  · rfl

/-- Claim C2 (refuted by the code): a sell that exactly exhausts a held
position does remove the portfolio entry, but `HandleSell` evaluates the
average-cost division before the zero-quantity check, and on that path its
divisor `sellDivisor position order` is 0: after buy 10 AAPL @ 10, selling
10 AAPL reaches the division with divisor `10 - 10 = 0`, and only
afterwards is the entry erased. -/
theorem spec_C2_exhausting_sell_divisor_zero :
    mapFind (applyOrders (init 10000) [buyOrder "AAPL" 10 10]).portfolio_ "AAPL" =
      some { name := "AAPL", quantity := 10, price := 10 } ∧
    sellDivisor { name := "AAPL", quantity := 10, price := 10 }
      (sellOrder "AAPL" 10 10) = 0 ∧
    (SubmitOrder (applyOrders (init 10000) [buyOrder "AAPL" 10 10])
      (sellOrder "AAPL" 10 10)).1 = 10 ∧
    mapFind ((SubmitOrder (applyOrders (init 10000) [buyOrder "AAPL" 10 10])
      (sellOrder "AAPL" 10 10)).2).portfolio_ "AAPL" = none := by
  refine ⟨?_, ?_, ?_, ?_⟩ <;>
    norm_num [applyOrders, List.foldl, SubmitOrder, affordableQty, HandleBuy, HandleSell,
      drainLots, mapFind, mapSet, mapErase, init, buyOrder, sellOrder, sellDivisor]

/-- Claim C3: for every ledger created with a non-negative initial cash
balance and every sequence of `SubmitOrder` calls (each order satisfying
the spec's precondition `price ≥ 0`), `cashBalance` is non-negative after
every call, i.e. after every prefix of the sequence. -/
theorem spec_C3_cash_never_negative (c : ℚ) (hc : 0 ≤ c) (orders : List Order)
    (hp : ∀ o ∈ orders, 0 ≤ o.position.price) :
    ∀ pre suf, orders = pre ++ suf →
      0 ≤ (applyOrders (init c) pre).cashBalance_ := by
  intro pre suf hsplit
  refine cash_applyOrders (init c) pre hc ?_
  intro o ho
  exact hp o (by rw [hsplit]; exact List.mem_append.mpr (Or.inl ho))

theorem spec_C3_cash_never_negative_witness :
    ((0 : ℚ) ≤ 10000 ∧
      (∀ o ∈ [buyOrder "AAPL" 101 100, sellOrder "AAPL" 40 120],
        (0 : ℚ) ≤ o.position.price) ∧
      [buyOrder "AAPL" 101 100, sellOrder "AAPL" 40 120] =
        [buyOrder "AAPL" 101 100] ++ [sellOrder "AAPL" 40 120]) ∧
    0 ≤ (applyOrders (init 10000) [buyOrder "AAPL" 101 100]).cashBalance_ :=
  ⟨⟨by norm_num, by norm_num [buyOrder, sellOrder], rfl⟩,
    spec_C3_cash_never_negative 10000 (by norm_num)
      [buyOrder "AAPL" 101 100, sellOrder "AAPL" 40 120]
      (by norm_num [buyOrder, sellOrder])
      [buyOrder "AAPL" 101 100] [sellOrder "AAPL" 40 120] rfl⟩

/-- Claim C4: after every sequence of `SubmitOrder` calls, every security's
portfolio quantity (0 if absent) equals the total quantity across its FIFO
buy-lot queue (0 if the queue is absent or empty). -/
theorem spec_C4_portfolio_matches_lots (c : ℚ) (orders : List Order) (name : String) :
    portfolioQty (applyOrders (init c) orders) name =
      lotSum (applyOrders (init c) orders) name :=
  (inv_applyOrders (init c) orders (inv_init c)).2.2 name

theorem spec_C4_portfolio_matches_lots_witness :
    portfolioQty (applyOrders (init 10000) [buyOrder "AAPL" 3 5]) "AAPL" =
      lotSum (applyOrders (init 10000) [buyOrder "AAPL" 3 5]) "AAPL" :=
  spec_C4_portfolio_matches_lots 10000 [buyOrder "AAPL" 3 5] "AAPL"

/-- Claim C8: a sell for more than the held quantity fills exactly the held
quantity (not the requested one), and a sell of a security absent from the
portfolio returns 0 and leaves every component of the ledger state
unchanged. -/
theorem spec_C8_sell_clamped_and_absent_noop (s : BrokerClient) (name : String)
    (q : Nat) (p : ℚ) :
    (∀ position, mapFind s.portfolio_ name = some position →
      position.quantity < q →
      (SubmitOrder s (sellOrder name q p)).1 = position.quantity) ∧
    (mapFind s.portfolio_ name = none →
      SubmitOrder s (sellOrder name q p) = (0, s)) := by
  constructor
  · intro position hfind hlt
    simp [SubmitOrder, sellOrder, hfind, Nat.min_eq_right hlt.le]
  · intro hfind
    simp [SubmitOrder, sellOrder, hfind]

theorem spec_C8_sell_clamped_and_absent_noop_witness :
    (mapFind (applyOrders (init 10000) [buyOrder "AAPL" 10 10]).portfolio_ "AAPL" =
        some { name := "AAPL", quantity := 10, price := 10 } ∧
      (10 : Nat) < 25 ∧
      (SubmitOrder (applyOrders (init 10000) [buyOrder "AAPL" 10 10])
        (sellOrder "AAPL" 25 60)).1 = 10) ∧
    (mapFind (init 500).portfolio_ "MSFT" = none ∧
      SubmitOrder (init 500) (sellOrder "MSFT" 3 2) = (0, init 500)) :=
  ⟨⟨by norm_num [applyOrders, List.foldl, SubmitOrder, affordableQty, HandleBuy,
      mapFind, mapSet, init, buyOrder], by norm_num,
    (spec_C8_sell_clamped_and_absent_noop
        (applyOrders (init 10000) [buyOrder "AAPL" 10 10]) "AAPL" 25 60).1
      { name := "AAPL", quantity := 10, price := 10 }
      (by norm_num [applyOrders, List.foldl, SubmitOrder, affordableQty, HandleBuy,
        mapFind, mapSet, init, buyOrder]) (by norm_num)⟩,
   ⟨rfl, (spec_C8_sell_clamped_and_absent_noop (init 500) "MSFT" 3 2).2 rfl⟩⟩

/-- Claim C9: a buy order with price 0 fills the entire requested quantity
and leaves `cashBalance` unchanged (stated for non-negative cash balances,
where the IEEE-754 quotient in the source's `min` expression yields the
full request). -/
theorem spec_C9_zero_price_buy (s : BrokerClient) (name : String) (q : Nat)
    (_hc : 0 ≤ s.cashBalance_) :
    (SubmitOrder s (buyOrder name q 0)).1 = q ∧
      (SubmitOrder s (buyOrder name q 0)).2.cashBalance_ = s.cashBalance_ := by
  have haff : affordableQty s.cashBalance_ 0 q = q := by
    simp [affordableQty]
  by_cases h0 : q = 0
  · subst h0
    simp [SubmitOrder, buyOrder, haff]
  · constructor
    · simp [SubmitOrder, buyOrder, haff, h0]
    · simp [SubmitOrder, buyOrder, haff, h0, HandleBuy]

theorem spec_C9_zero_price_buy_witness :
    ((0 : ℚ) ≤ (init 42).cashBalance_) ∧
      (SubmitOrder (init 42) (buyOrder "FREE" 7 0)).1 = 7 ∧
      (SubmitOrder (init 42) (buyOrder "FREE" 7 0)).2.cashBalance_ =
        (init 42).cashBalance_ :=
  ⟨by norm_num [init],
    (spec_C9_zero_price_buy (init 42) "FREE" 7 (by norm_num [init])).1,
    (spec_C9_zero_price_buy (init 42) "FREE" 7 (by norm_num [init])).2⟩

/-- Claim C5: a buy with `price > 0` and requested quantity exceeding the
affordable quantity `⌊cash / price⌋` fills exactly the affordable quantity
(not the requested one), pays `price` per filled share, and leaves
`cashBalance` in the interval `[0, price)`. -/
theorem spec_C5_partial_buy_fills_floor (s : BrokerClient) (name : String)
    (q : Nat) (p : ℚ) (hc : 0 ≤ s.cashBalance_) (hp : 0 < p)
    (hq : Int.toNat ⌊s.cashBalance_ / p⌋ < q) :
    (SubmitOrder s (buyOrder name q p)).1 = Int.toNat ⌊s.cashBalance_ / p⌋ ∧
      (SubmitOrder s (buyOrder name q p)).2.cashBalance_ =
        s.cashBalance_ - p * (Int.toNat ⌊s.cashBalance_ / p⌋ : ℚ) ∧
      0 ≤ (SubmitOrder s (buyOrder name q p)).2.cashBalance_ ∧
      (SubmitOrder s (buyOrder name q p)).2.cashBalance_ < p := by
  have hfl0 : (0 : ℤ) ≤ ⌊s.cashBalance_ / p⌋ := Int.floor_nonneg.mpr (div_nonneg hc hp.le)
  have hAcast : ((Int.toNat ⌊s.cashBalance_ / p⌋ : ℕ) : ℤ) = ⌊s.cashBalance_ / p⌋ :=
    Int.toNat_of_nonneg hfl0
  have haff : affordableQty s.cashBalance_ p q = Int.toNat ⌊s.cashBalance_ / p⌋ := by
    simp [affordableQty, hp.ne', Nat.min_eq_right hq.le]
  have hcastQ : (((Int.toNat ⌊s.cashBalance_ / p⌋ : ℕ) : ℚ)) =
      ((⌊s.cashBalance_ / p⌋ : ℤ) : ℚ) := by
    exact_mod_cast congrArg (fun z => ((z : ℤ) : ℚ)) hAcast
  have hmul : ((Int.toNat ⌊s.cashBalance_ / p⌋ : ℕ) : ℚ) * p ≤ s.cashBalance_ :=
    affordable_mul_le _ _ _ hc hp (le_refl _)
  have hup : s.cashBalance_ < ((Int.toNat ⌊s.cashBalance_ / p⌋ : ℕ) : ℚ) * p + p := by
    have h1 := Int.lt_floor_add_one (s.cashBalance_ / p)
    rw [← hcastQ] at h1
    have h2 := (div_lt_iff₀ hp).mp h1
    calc s.cashBalance_ < (((Int.toNat ⌊s.cashBalance_ / p⌋ : ℕ) : ℚ) + 1) * p := h2
    _ = ((Int.toNat ⌊s.cashBalance_ / p⌋ : ℕ) : ℚ) * p + p := by ring
  by_cases hA0 : Int.toNat ⌊s.cashBalance_ / p⌋ = 0
  · have hsub : SubmitOrder s (buyOrder name q p) = (0, s) := by
      simp [SubmitOrder, buyOrder, haff, hA0]
    rw [hA0] at hup
    refine ⟨by rw [hsub, hA0], ?_, by rw [hsub]; exact hc, ?_⟩
    · rw [hsub, hA0]
      simp
    · rw [hsub]
      simpa using hup
  · simp only [SubmitOrder, buyOrder, haff, if_neg hA0, HandleBuy]
    refine ⟨by trivial, by trivial, ?_, ?_⟩
    · rw [sub_nonneg, mul_comm]
      exact hmul
    · rw [sub_lt_iff_lt_add, mul_comm]
      linarith [hup]

theorem spec_C5_partial_buy_fills_floor_witness :
    ((0 : ℚ) ≤ (init 10000).cashBalance_ ∧ (0 : ℚ) < 100 ∧
      Int.toNat ⌊(init 10000).cashBalance_ / 100⌋ < 101) ∧
    (SubmitOrder (init 10000) (buyOrder "AAPL" 101 100)).1 = 100 ∧
    (SubmitOrder (init 10000) (buyOrder "AAPL" 101 100)).2.cashBalance_ = 0 := by
  have hfl : Int.toNat ⌊(init 10000).cashBalance_ / 100⌋ = 100 := by
    norm_num [init]
    decide
  refine ⟨⟨by norm_num [init], by norm_num, by rw [hfl]; norm_num⟩, ?_, ?_⟩
  · have h := (spec_C5_partial_buy_fills_floor (init 10000) "AAPL" 101 100
      (by norm_num [init]) (by norm_num) (by rw [hfl]; norm_num)).1
    rw [h, hfl]
  · have h := (spec_C5_partial_buy_fills_floor (init 10000) "AAPL" 101 100
      (by norm_num [init]) (by norm_num) (by rw [hfl]; norm_num)).2.1
    rw [h, hfl]
    norm_num [init]

/-- Claim C7: buying `q > 0` shares at price `p > 0` of a security not
currently held, with `q * p ≤ cashBalance`, and then immediately selling
the same quantity at the same price restores `cashBalance` exactly to its
pre-buy value and leaves the security absent from the portfolio. -/
theorem spec_C7_buy_sell_roundtrip (s : BrokerClient) (n : String) (q : Nat)
    (p : ℚ) (habs : mapFind s.portfolio_ n = none) (hq : 0 < q) (hp : 0 < p)
    (hc : (q : ℚ) * p ≤ s.cashBalance_) :
    ((SubmitOrder (SubmitOrder s (buyOrder n q p)).2 (sellOrder n q p)).2).cashBalance_ =
      s.cashBalance_ ∧
    mapFind ((SubmitOrder (SubmitOrder s (buyOrder n q p)).2
      (sellOrder n q p)).2).portfolio_ n = none := by
  rw [submitOrder_buy_fills s n q p hq hp hc]
  have hport1 : (HandleBuy s (buyOrder n q p)).portfolio_ =
      mapSet s.portfolio_ n (buyOrder n q p).position := by
    simp only [HandleBuy, buyOrder, habs]
  have hcash1 : (HandleBuy s (buyOrder n q p)).cashBalance_ =
      s.cashBalance_ - p * q := by
    simp [HandleBuy, buyOrder]
  have hfind1 : mapFind (HandleBuy s (buyOrder n q p)).portfolio_ n =
      some { name := n, quantity := q, price := p } := by
    rw [hport1]
    exact mapFind_mapSet_self _ _ _
  have hsell : SubmitOrder (HandleBuy s (buyOrder n q p)) (sellOrder n q p) =
      (q, HandleSell (HandleBuy s (buyOrder n q p)) (sellOrder n q p)) := by
    simp only [SubmitOrder, sellOrder]
    rw [hfind1]
    simp [sellOrder]
  rw [hsell]
  constructor
  · have hch : (HandleSell (HandleBuy s (buyOrder n q p)) (sellOrder n q p)).cashBalance_ =
        (HandleBuy s (buyOrder n q p)).cashBalance_ + p * q := by
      simp [HandleSell, sellOrder]
    rw [hch, hcash1]
    ring
  · have hpfs : (HandleSell (HandleBuy s (buyOrder n q p)) (sellOrder n q p)).portfolio_ =
        mapErase (HandleBuy s (buyOrder n q p)).portfolio_ n := by
      simp only [HandleSell, sellOrder]
      rw [hfind1]
      simp
    rw [hpfs, hport1, mapErase_mapSet _ _ _ habs]
    exact habs

theorem spec_C7_buy_sell_roundtrip_witness :
    (mapFind (init 1000).portfolio_ "AAPL" = none ∧ 0 < 3 ∧ (0 : ℚ) < 7 ∧
      ((3 : Nat) : ℚ) * 7 ≤ (init 1000).cashBalance_) ∧
    ((SubmitOrder (SubmitOrder (init 1000) (buyOrder "AAPL" 3 7)).2
      (sellOrder "AAPL" 3 7)).2).cashBalance_ = (init 1000).cashBalance_ ∧
    mapFind ((SubmitOrder (SubmitOrder (init 1000) (buyOrder "AAPL" 3 7)).2
      (sellOrder "AAPL" 3 7)).2).portfolio_ "AAPL" = none :=
  ⟨⟨rfl, by norm_num, by norm_num, by norm_num [init]⟩,
    (spec_C7_buy_sell_roundtrip (init 1000) "AAPL" 3 7 rfl (by norm_num)
      (by norm_num) (by norm_num [init])).1,
    (spec_C7_buy_sell_roundtrip (init 1000) "AAPL" 3 7 rfl (by norm_num)
      (by norm_num) (by norm_num [init])).2⟩

/-- Claim C6: starting from any ledger with sufficient cash (`500 ≤ c`) and
no holdings, the sequence buy 10@10, buy 10@40, sell 5@60, sell 10@60,
buy 5@45 yields portfolio positions (price 25, qty 20) after the two buys,
then (30, 15), (40, 5) and (42.5, 10) — the sell-side price recomputed from
FIFO-consumed lot cost, not from the sell execution price. -/
theorem spec_C6_weighted_average_scenario (c : ℚ) (hc : 500 ≤ c) :
    mapFind (applyOrders (init c) [buyOrder "AAPL" 10 10,
        buyOrder "AAPL" 10 40]).portfolio_ "AAPL" =
      some { name := "AAPL", quantity := 20, price := 25 } ∧
    mapFind (applyOrders (init c) [buyOrder "AAPL" 10 10, buyOrder "AAPL" 10 40,
        sellOrder "AAPL" 5 60]).portfolio_ "AAPL" =
      some { name := "AAPL", quantity := 15, price := 30 } ∧
    mapFind (applyOrders (init c) [buyOrder "AAPL" 10 10, buyOrder "AAPL" 10 40,
        sellOrder "AAPL" 5 60, sellOrder "AAPL" 10 60]).portfolio_ "AAPL" =
      some { name := "AAPL", quantity := 5, price := 40 } ∧
    mapFind (applyOrders (init c) [buyOrder "AAPL" 10 10, buyOrder "AAPL" 10 40,
        sellOrder "AAPL" 5 60, sellOrder "AAPL" 10 60,
        buyOrder "AAPL" 5 45]).portfolio_ "AAPL" =
      some { name := "AAPL", quantity := 10, price := 85/2 } := by
  have e1 : SubmitOrder (init c) (buyOrder "AAPL" 10 10) =
      (10, ⟨c - 100, [("AAPL", ⟨"AAPL", 10, 10⟩)], [buyOrder "AAPL" 10 10],
        [("AAPL", [buyOrder "AAPL" 10 10])]⟩) := by
    rw [submitOrder_buy_fills _ _ _ _ (by norm_num) (by norm_num)
      (by show ((10 : Nat) : ℚ) * 10 ≤ c; push_cast; linarith)]
    norm_num [HandleBuy, init, buyOrder, mapFind, mapSet]
  have e2 : SubmitOrder (⟨c - 100, [("AAPL", ⟨"AAPL", 10, 10⟩)],
        [buyOrder "AAPL" 10 10], [("AAPL", [buyOrder "AAPL" 10 10])]⟩ : BrokerClient)
      (buyOrder "AAPL" 10 40) =
      (10, ⟨c - 500, [("AAPL", ⟨"AAPL", 20, 25⟩)],
        [buyOrder "AAPL" 10 10, buyOrder "AAPL" 10 40],
        [("AAPL", [buyOrder "AAPL" 10 10, buyOrder "AAPL" 10 40])]⟩) := by
    rw [submitOrder_buy_fills _ _ _ _ (by norm_num) (by norm_num)
      (by show ((10 : Nat) : ℚ) * 40 ≤ c - 100; push_cast; linarith)]
    norm_num [HandleBuy, buyOrder, mapFind, mapSet]
    ring
  have e3 : SubmitOrder (⟨c - 500, [("AAPL", ⟨"AAPL", 20, 25⟩)],
        [buyOrder "AAPL" 10 10, buyOrder "AAPL" 10 40],
        [("AAPL", [buyOrder "AAPL" 10 10, buyOrder "AAPL" 10 40])]⟩ : BrokerClient)
      (sellOrder "AAPL" 5 60) =
      (5, ⟨c - 200, [("AAPL", ⟨"AAPL", 15, 30⟩)],
        [buyOrder "AAPL" 10 10, buyOrder "AAPL" 10 40, sellOrder "AAPL" 5 60],
        [("AAPL", [⟨OrderKind.Buy, ⟨"AAPL", 5, 10⟩⟩, buyOrder "AAPL" 10 40])]⟩) := by
    norm_num [SubmitOrder, sellOrder, buyOrder, mapFind, HandleSell, drainLots,
      mapSet, mapErase, sellDivisor]
    ring
  have e4 : SubmitOrder (⟨c - 200, [("AAPL", ⟨"AAPL", 15, 30⟩)],
        [buyOrder "AAPL" 10 10, buyOrder "AAPL" 10 40, sellOrder "AAPL" 5 60],
        [("AAPL", [⟨OrderKind.Buy, ⟨"AAPL", 5, 10⟩⟩,
          buyOrder "AAPL" 10 40])]⟩ : BrokerClient)
      (sellOrder "AAPL" 10 60) =
      (10, ⟨c + 400, [("AAPL", ⟨"AAPL", 5, 40⟩)],
        [buyOrder "AAPL" 10 10, buyOrder "AAPL" 10 40, sellOrder "AAPL" 5 60,
          sellOrder "AAPL" 10 60],
        [("AAPL", [⟨OrderKind.Buy, ⟨"AAPL", 5, 40⟩⟩])]⟩) := by
    norm_num [SubmitOrder, sellOrder, buyOrder, mapFind, HandleSell, drainLots,
      mapSet, mapErase, sellDivisor]
    ring
  have e5 : SubmitOrder (⟨c + 400, [("AAPL", ⟨"AAPL", 5, 40⟩)],
        [buyOrder "AAPL" 10 10, buyOrder "AAPL" 10 40, sellOrder "AAPL" 5 60,
          sellOrder "AAPL" 10 60],
        [("AAPL", [⟨OrderKind.Buy, ⟨"AAPL", 5, 40⟩⟩])]⟩ : BrokerClient)
      (buyOrder "AAPL" 5 45) =
      (5, ⟨c + 175, [("AAPL", ⟨"AAPL", 10, 85/2⟩)],
        [buyOrder "AAPL" 10 10, buyOrder "AAPL" 10 40, sellOrder "AAPL" 5 60,
          sellOrder "AAPL" 10 60, buyOrder "AAPL" 5 45],
        [("AAPL", [⟨OrderKind.Buy, ⟨"AAPL", 5, 40⟩⟩,
          buyOrder "AAPL" 5 45])]⟩) := by
    rw [submitOrder_buy_fills _ _ _ _ (by norm_num) (by norm_num)
      (by show ((5 : Nat) : ℚ) * 45 ≤ c + 400; push_cast; linarith)]
    norm_num [HandleBuy, buyOrder, mapFind, mapSet]
    ring
  refine ⟨?_, ?_, ?_, ?_⟩
  · have a2 : applyOrders (init c) [buyOrder "AAPL" 10 10, buyOrder "AAPL" 10 40] =
        ⟨c - 500, [("AAPL", ⟨"AAPL", 20, 25⟩)],
          [buyOrder "AAPL" 10 10, buyOrder "AAPL" 10 40],
          [("AAPL", [buyOrder "AAPL" 10 10, buyOrder "AAPL" 10 40])]⟩ := by
      simp only [applyOrders, List.foldl, e1, e2]
    rw [a2]
    norm_num [mapFind]
  · have a3 : applyOrders (init c) [buyOrder "AAPL" 10 10, buyOrder "AAPL" 10 40,
        sellOrder "AAPL" 5 60] =
        ⟨c - 200, [("AAPL", ⟨"AAPL", 15, 30⟩)],
          [buyOrder "AAPL" 10 10, buyOrder "AAPL" 10 40, sellOrder "AAPL" 5 60],
          [("AAPL", [⟨OrderKind.Buy, ⟨"AAPL", 5, 10⟩⟩, buyOrder "AAPL" 10 40])]⟩ := by
      simp only [applyOrders, List.foldl, e1, e2, e3]
    rw [a3]
    norm_num [mapFind]
  · have a4 : applyOrders (init c) [buyOrder "AAPL" 10 10, buyOrder "AAPL" 10 40,
        sellOrder "AAPL" 5 60, sellOrder "AAPL" 10 60] =
        ⟨c + 400, [("AAPL", ⟨"AAPL", 5, 40⟩)],
          [buyOrder "AAPL" 10 10, buyOrder "AAPL" 10 40, sellOrder "AAPL" 5 60,
            sellOrder "AAPL" 10 60],
          [("AAPL", [⟨OrderKind.Buy, ⟨"AAPL", 5, 40⟩⟩])]⟩ := by
      simp only [applyOrders, List.foldl, e1, e2, e3, e4]
    rw [a4]
    norm_num [mapFind]
  · have a5 : applyOrders (init c) [buyOrder "AAPL" 10 10, buyOrder "AAPL" 10 40,
        sellOrder "AAPL" 5 60, sellOrder "AAPL" 10 60, buyOrder "AAPL" 5 45] =
        ⟨c + 175, [("AAPL", ⟨"AAPL", 10, 85/2⟩)],
          [buyOrder "AAPL" 10 10, buyOrder "AAPL" 10 40, sellOrder "AAPL" 5 60,
            sellOrder "AAPL" 10 60, buyOrder "AAPL" 5 45],
          [("AAPL", [⟨OrderKind.Buy, ⟨"AAPL", 5, 40⟩⟩, buyOrder "AAPL" 5 45])]⟩ := by
      simp only [applyOrders, List.foldl, e1, e2, e3, e4, e5]
    rw [a5]
    norm_num [mapFind]

theorem spec_C6_weighted_average_scenario_witness :
    (500 : ℚ) ≤ 10000 ∧
    mapFind (applyOrders (init 10000) [buyOrder "AAPL" 10 10, buyOrder "AAPL" 10 40,
        sellOrder "AAPL" 5 60, sellOrder "AAPL" 10 60,
        buyOrder "AAPL" 5 45]).portfolio_ "AAPL" =
      some { name := "AAPL", quantity := 10, price := 85/2 } :=
  ⟨by norm_num, (spec_C6_weighted_average_scenario 10000 (by norm_num)).2.2.2⟩

/-- Claim C10: in every reachable ledger state the portfolio map's keys are
strictly sorted in ascending lexicographic order, `GetPositions` returns
exactly the portfolio map's values in that key order, and a security has an
entry exactly when it appears among the keys — one position per currently
held security, in `std::map` key order. -/
theorem spec_C10_positions_snapshot (c : ℚ) (orders : List Order) :
    ((applyOrders (init c) orders).portfolio_.map Prod.fst).Sorted (· < ·) ∧
      GetPositions (applyOrders (init c) orders) =
        (applyOrders (init c) orders).portfolio_.map Prod.snd ∧
      ∀ name, (mapFind (applyOrders (init c) orders).portfolio_ name).isSome ↔
        name ∈ (applyOrders (init c) orders).portfolio_.map Prod.fst :=
  ⟨(inv_applyOrders (init c) orders (inv_init c)).1, rfl,
    fun name => mapFind_isSome_iff_mem _ name⟩

theorem spec_C10_positions_snapshot_witness :
    ((applyOrders (init 100) [buyOrder "B" 1 2]).portfolio_.map Prod.fst).Sorted (· < ·) ∧
      GetPositions (applyOrders (init 100) [buyOrder "B" 1 2]) =
        (applyOrders (init 100) [buyOrder "B" 1 2]).portfolio_.map Prod.snd ∧
      ∀ name, (mapFind (applyOrders (init 100) [buyOrder "B" 1 2]).portfolio_ name).isSome ↔
        name ∈ (applyOrders (init 100) [buyOrder "B" 1 2]).portfolio_.map Prod.fst :=
  spec_C10_positions_snapshot 100 [buyOrder "B" 1 2]

end BrokerClient

end Broker
